import Mathlib

/-!
# Verification of the System Metrics Monitor core

A shallow embedding, in Lean 4, of the Python modules `src/alerts.py`,
`src/auth.py` and the collection loop of `src/app.py` of the
System_Metrics_Monitor repository, together with theorems settling the
specification claims about them.

Modelling conventions:
* Python floats (metric percentages, thresholds) are modelled as `ℚ`;
  all comparisons in the source are order comparisons, faithfully
  preserved over `ℚ`.
* `datetime` values and `timedelta` durations are modelled as `ℚ`
  (measured in hours, so that `timedelta(hours=24)` is the constant `24`);
  only their ordered additive structure is used by the source.
* Python `dict` (insertion-ordered, unique keys) is modelled as an
  association list `List (String × β)` with `dictLookup`
  (`d[k]` / `k in d`), `dictInsert` (`d[k] = v`: replace in place if the
  key exists, else append) and `dictDelete` (`del d[k]`).
* A Python method that mutates `self` becomes a function returning the
  new state; a method that can `raise` returns the new state paired with
  `Except String α`, where a raise before any mutation yields the
  original state unchanged, exactly as in the source.
* `bcrypt.hashpw` / `bcrypt.checkpw` and `bcrypt.gensalt` are external
  library calls: they are passed as explicit function/value parameters.
  `secrets.token_hex(32)` is modelled by passing the 32 random bytes as
  an explicit parameter and hex-encoding them with `token_hex`.
* Alert `message` fields are presentational strings produced by Python
  float formatting (`'{:.2f}'`); no claim refers to them and float
  formatting is not modelled, so the `Alert` record carries the
  remaining six fields of the dictionary built in `check_thresholds`.
-/

/-! ## Python dict as an association list -/

/-- `d.get(k)` / `k in d` on a Python dict: first binding of the key. -/
def dictLookup {β : Type} (k : String) : List (String × β) → Option β
  | [] => none
  | (k₁, v₁) :: rest => if k₁ = k then some v₁ else dictLookup k rest

/-- `d[k] = v` on a Python dict: replace in place when the key is present
(keeping its position), append at the end otherwise. -/
def dictInsert {β : Type} (k : String) (v : β) : List (String × β) → List (String × β)
  | [] => [(k, v)]
  | (k₁, v₁) :: rest => if k₁ = k then (k, v) :: rest else (k₁, v₁) :: dictInsert k v rest

/-- `del d[k]` on a Python dict: remove the binding of the key. -/
def dictDelete {β : Type} (k : String) : List (String × β) → List (String × β)
  | [] => []
  | (k₁, v₁) :: rest => if k₁ = k then rest else (k₁, v₁) :: dictDelete k rest

/-! ## src/alerts.py -/

/-- The `'type'` field of an alert dictionary: `'CPU'` or `'MEMORY'`. -/
inductive AlertType where
  | CPU
  | MEMORY
deriving DecidableEq

/-- The alert dictionary built by `AlertManager.check_thresholds`
(the formatted `message` string aside, see the module docstring). -/
structure Alert where
  type : AlertType
  value : ℚ
  threshold : ℚ
  timestamp : ℚ
  severity : String
deriving DecidableEq

/-- The mutable state of `AlertManager` (the unused `active_alerts`
dictionary is omitted). -/
structure AlertManager where
  cpu_threshold : ℚ
  memory_threshold : ℚ
deriving DecidableEq

/-- `AlertManager.__init__`: cpu threshold 25.0, memory threshold 30.0. -/
def AlertManager.init : AlertManager :=
  { cpu_threshold := 25, memory_threshold := 30 }

/-- `AlertManager.check_thresholds(cpu_usage, memory_usage, timestamp)`:
appends a CPU alert when `cpu_usage > self.cpu_threshold`, then a MEMORY
alert when `memory_usage > self.memory_threshold`, and returns the list.
The method reads `self` and mutates nothing. -/
def check_thresholds (m : AlertManager) (cpu_usage memory_usage timestamp : ℚ) :
    List Alert :=
  let alerts : List Alert := []
  let alerts := if cpu_usage > m.cpu_threshold then
      alerts ++ [{ type := AlertType.CPU, value := cpu_usage,
                   threshold := m.cpu_threshold, timestamp := timestamp,
                   severity := "HIGH" }]
    else alerts
  let alerts := if memory_usage > m.memory_threshold then
      alerts ++ [{ type := AlertType.MEMORY, value := memory_usage,
                   threshold := m.memory_threshold, timestamp := timestamp,
                   severity := "HIGH" }]
    else alerts
  alerts

/-- `AlertManager.set_cpu_threshold(threshold)`: accepts iff
`threshold >= 0 and threshold <= 100`, else raises `ValueError` leaving
the state untouched. -/
def set_cpu_threshold (m : AlertManager) (threshold : ℚ) :
    AlertManager × Except String Unit :=
  if threshold ≥ 0 ∧ threshold ≤ 100 then
    ({ m with cpu_threshold := threshold }, Except.ok ())
  else
    (m, Except.error "CPU threshold must be between 0 and 100")

/-- `AlertManager.set_memory_threshold(threshold)`: accepts iff
`threshold >= 0 and threshold <= 100`, else raises `ValueError` leaving
the state untouched. -/
def set_memory_threshold (m : AlertManager) (threshold : ℚ) :
    AlertManager × Except String Unit :=
  if threshold ≥ 0 ∧ threshold ≤ 100 then
    ({ m with memory_threshold := threshold }, Except.ok ())
  else
    (m, Except.error "Memory threshold must be between 0 and 100")

/-- `AlertManager.get_thresholds()`: the current pair of thresholds. -/
def get_thresholds (m : AlertManager) : ℚ × ℚ :=
  (m.cpu_threshold, m.memory_threshold)

/-! ## src/auth.py -/

/-- The user dictionary stored by `AuthManager.register_user`. -/
structure User where
  id : Nat
  username : String
  password_hash : String
  created_at : ℚ
deriving DecidableEq

/-- The session dictionary stored by `AuthManager.login_user`. -/
structure Session where
  user_id : Nat
  username : String
  expiry : ℚ
deriving DecidableEq

/-- The mutable state of `AuthManager`: the `users` dict, the `sessions`
dict, and the `session_duration` set once in `__init__`. -/
structure AuthManager where
  users : List (String × User)
  sessions : List (String × Session)
  session_duration : ℚ
deriving DecidableEq

/-- `AuthManager.__init__`: empty stores, `timedelta(hours=24)` (time is
measured in hours, see the module docstring). -/
def AuthManager.init : AuthManager :=
  { users := [], sessions := [], session_duration := 24 }

/-- `AuthManager.register_user(username, password)`. `bcrypt.hashpw` and
the salt from `bcrypt.gensalt()` are the parameters `hashpw` and `salt`;
`datetime.now()` is the parameter `now`. Raises before any mutation when
the username is taken; otherwise stores the new user and returns its id. -/
def register_user (hashpw : String → String → String) (salt : String) (now : ℚ)
    (m : AuthManager) (username password : String) :
    AuthManager × Except String Nat :=
  if (dictLookup username m.users).isSome then
    (m, Except.error "Username already exists")
  else
    let hashed := hashpw password salt
    let user_id := m.users.length + 1
    let user : User :=
      { id := user_id, username := username, password_hash := hashed,
        created_at := now }
    ({ m with users := dictInsert username user m.users }, Except.ok user_id)

/-- The 16 lowercase hexadecimal digits, in value order. -/
def hexDigits : List Char := "0123456789abcdef".data

/-- The hex digit of a value below 16. -/
def hexChar (n : Nat) : Char := hexDigits.getD n '0'

/-- Hex encoding of one byte: high nibble then low nibble. -/
def byteToHex (b : Nat) : List Char := [hexChar (b / 16), hexChar (b % 16)]

/-- `secrets.token_hex(32)` hex-encodes 32 random bytes; `token_hex`
models the (deterministic) encoding applied to the random bytes, which
are passed in explicitly. -/
def token_hex (bytes : List Nat) : String := String.mk (bytes.flatMap byteToHex)

/-- `AuthManager.login_user(username, password)`. `bcrypt.checkpw` is the
parameter `checkpw`, the random bytes behind `secrets.token_hex(32)` are
`tokenBytes`, `datetime.now()` is `now`. Raises before any mutation on an
unknown username or a failed password check, with the same message in
both cases; otherwise stores a session under the fresh token and returns
the token. -/
def login_user (checkpw : String → String → Bool) (tokenBytes : List Nat)
    (now : ℚ) (m : AuthManager) (username password : String) :
    AuthManager × Except String String :=
  match dictLookup username m.users with
  | none => (m, Except.error "Invalid username or password")
  | some user =>
    if ¬ checkpw password user.password_hash then
      (m, Except.error "Invalid username or password")
    else
      let token := token_hex tokenBytes
      let expiry := now + m.session_duration
      let session : Session :=
        { user_id := user.id, username := username, expiry := expiry }
      ({ m with sessions := dictInsert token session m.sessions },
       Except.ok token)

/-- `AuthManager.validate_session(token)`: false if the token is absent;
if present but `now > expiry`, delete the session and return false;
otherwise return true. -/
def validate_session (now : ℚ) (m : AuthManager) (token : String) :
    AuthManager × Bool :=
  match dictLookup token m.sessions with
  | none => (m, false)
  | some session =>
    if session.expiry < now then
      ({ m with sessions := dictDelete token m.sessions }, false)
    else
      (m, true)

/-- `AuthManager.get_user_id(username)`: id of the user when present. -/
def get_user_id (m : AuthManager) (username : String) : Option Nat :=
  match dictLookup username m.users with
  | some user => some user.id
  | none => none

/-- `AuthManager.cleanup_expired_sessions()`: drop every session whose
expiry is strictly before `now`. -/
def cleanup_expired_sessions (now : ℚ) (m : AuthManager) : AuthManager :=
  { m with sessions := m.sessions.filter (fun p => ¬ p.2.expiry < now) }

/-- A sequence of `register_user` calls starting from a given state,
keeping the state of each call (failed calls leave it unchanged). -/
def register_all (hashpw : String → String → String) (salt : String) (now : ℚ)
    (m : AuthManager) (creds : List (String × String)) : AuthManager :=
  creds.foldl (fun m c => (register_user hashpw salt now m c.1 c.2).1) m

/-! ## src/app.py: metric history buffer and collection loop -/

/-- The metric dictionary built each iteration of
`collect_metrics_continuously`. -/
structure Metric where
  timestamp : ℚ
  cpu_usage : ℚ
  memory_usage : ℚ
deriving DecidableEq

/-- `MAX_METRICS_STORAGE`: capacity of the `recent_metrics` list. -/
def MAX_METRICS_STORAGE : Nat := 100

/-- One buffer update of the loop body:
`recent_metrics.append(metric)` followed by
`if len(recent_metrics) > MAX_METRICS_STORAGE: recent_metrics.pop(0)`. -/
def push_metric (recent_metrics : List Metric) (metric : Metric) : List Metric :=
  let recent_metrics := recent_metrics ++ [metric]
  if recent_metrics.length > MAX_METRICS_STORAGE then
    recent_metrics.drop 1
  else
    recent_metrics

/-- The buffer after a sequence of `push_metric` updates. -/
def push_all (recent_metrics : List Metric) (metrics : List Metric) : List Metric :=
  metrics.foldl push_metric recent_metrics

/-- One entry of the observable trace of `collect_metrics_continuously`:
whether the iteration's `try` body raised, and the sleep that followed
(5 seconds on success, 10 on error). -/
structure LoopIter where
  failed : Bool
  sleep : Nat
deriving DecidableEq

/-- The trace of `collect_metrics_continuously`, iteration by iteration.
`stop i` is whether `stop_event.is_set()` holds at the check before
iteration `i`; `fail i` is whether anything in iteration i's `try` body
(sampling, buffer update, evaluation, alert storage) raises. `fuel`
bounds the number of iterations observed; the loop itself is unbounded.
Each iteration first checks the stop event and exits if it is set;
otherwise it runs the body, sleeping 5 on success and catching any
exception and sleeping 10 on failure, and loops again. -/
def loop_trace (stop fail : Nat → Bool) : Nat → Nat → List LoopIter
  | 0, _ => []
  | fuel + 1, i =>
    if stop i then []
    else
      (if fail i then { failed := true, sleep := 10 }
       else { failed := false, sleep := 5 }) :: loop_trace stop fail fuel (i + 1)

/-! ## Lemmas about the dictionary model -/

theorem dictLookup_dictInsert_self {β : Type} (k : String) (v : β)
    (l : List (String × β)) : dictLookup k (dictInsert k v l) = some v := by
  induction l with
  | nil => simp [dictInsert, dictLookup]
  | cons p rest ih =>
    obtain ⟨k₁, v₁⟩ := p
    by_cases h : k₁ = k
    · simp [dictInsert, dictLookup, h]
    · simp [dictInsert, dictLookup, h, ih]

theorem dictInsert_of_lookup_none {β : Type} (k : String) (v : β)
    (l : List (String × β)) (h : dictLookup k l = none) :
    dictInsert k v l = l ++ [(k, v)] := by
  induction l with
  | nil => simp [dictInsert]
  | cons p rest ih =>
    obtain ⟨k₁, v₁⟩ := p
    by_cases hk : k₁ = k
    · simp [dictLookup, hk] at h
    · simp [dictLookup, hk] at h
      simp [dictInsert, hk, ih h]

theorem dictLookup_dictDelete_ne {β : Type} (k k₂ : String)
    (l : List (String × β)) (h : k₂ ≠ k) :
    dictLookup k₂ (dictDelete k l) = dictLookup k₂ l := by
  induction l with
  | nil => rfl
  | cons p rest ih =>
    obtain ⟨k₁, v₁⟩ := p
    by_cases hk : k₁ = k
    · subst hk
      have hne : ¬ k₁ = k₂ := fun hc => h hc.symm
      simp [dictDelete, dictLookup, hne]
    · by_cases hk₂ : k₁ = k₂ <;> simp [dictDelete, dictLookup, hk, hk₂, ih, h]

theorem dictLookup_append_of_none {β : Type} (k : String)
    (l₁ l₂ : List (String × β)) (h : dictLookup k l₁ = none) :
    dictLookup k (l₁ ++ l₂) = dictLookup k l₂ := by
  induction l₁ with
  | nil => simp
  | cons p rest ih =>
    obtain ⟨k₁, v₁⟩ := p
    by_cases hk : k₁ = k
    · simp [dictLookup, hk] at h
    · simp [dictLookup, hk] at h ⊢
      exact ih h

/-! ## Lemmas about the hex encoding behind `token_hex` -/

/-- Numeric value of a hex digit: position in `hexDigits`. -/
def hexVal (c : Char) : Nat := hexDigits.indexOf c

/-- Left inverse of the byte-wise hex encoding: decode two digits at a
time. -/
def bytesOfHex : List Char → List Nat
  | c₁ :: c₂ :: rest => (16 * hexVal c₁ + hexVal c₂) :: bytesOfHex rest
  | _ => []

theorem hexVal_hexChar : ∀ n, n < 16 → hexVal (hexChar n) = n := by decide

theorem hexChar_mem_hexDigits (n : Nat) : hexChar n ∈ hexDigits := by
  by_cases h : n < 16
  · revert h
    revert n
    decide
  · unfold hexChar
    rw [List.getD_eq_default]
    · decide
    · simp only [hexDigits, List.length]
      omega

theorem length_flatMap_byteToHex (bytes : List Nat) :
    (bytes.flatMap byteToHex).length = 2 * bytes.length := by
  induction bytes with
  | nil => simp
  | cons b rest ih =>
    simp [List.flatMap_cons, byteToHex, ih]
    omega

theorem mem_flatMap_byteToHex (bytes : List Nat) (c : Char)
    (h : c ∈ bytes.flatMap byteToHex) : c ∈ hexDigits := by
  rw [List.mem_flatMap] at h
  obtain ⟨b, _, hc⟩ := h
  simp only [byteToHex, List.mem_cons, List.not_mem_nil, or_false] at hc
  rcases hc with rfl | rfl <;> exact hexChar_mem_hexDigits _

theorem bytesOfHex_flatMap (bytes : List Nat) (h : ∀ b ∈ bytes, b < 256) :
    bytesOfHex (bytes.flatMap byteToHex) = bytes := by
  induction bytes with
  | nil => rfl
  | cons b rest ih =>
    have hb : b < 256 := h b (by simp)
    have h₁ : b / 16 < 16 := by omega
    have h₂ : b % 16 < 16 := by omega
    simp only [List.flatMap_cons, byteToHex, List.cons_append, List.nil_append,
      bytesOfHex]
    rw [hexVal_hexChar _ h₁, hexVal_hexChar _ h₂]
    have hdm : 16 * (b / 16) + b % 16 = b := by omega
    rw [hdm]
    have hrest := ih (fun x hx => h x (List.mem_cons_of_mem _ hx))
    simpa [List.flatMap] using hrest

/-! ## Lemmas about the metric history buffer -/

theorem push_all_eq_drop (xs : List Metric) :
    ∀ l : List Metric, l.length ≤ 100 →
      push_all l xs = (l ++ xs).drop (l.length + xs.length - 100) := by
  induction xs with
  | nil =>
    intro l hl
    have h0 : l.length - 100 = 0 := by omega
    simp [push_all, h0]
  | cons x xs ih =>
    intro l hl
    have hstep : push_all l (x :: xs) = push_all (push_metric l x) xs := rfl
    have hlx : (l ++ [x]).length = l.length + 1 := by
      simp
    by_cases hcase : l.length < 100
    · have hcond : ¬ ((l ++ [x]).length > MAX_METRICS_STORAGE) := by
        simp only [hlx, MAX_METRICS_STORAGE, gt_iff_lt]
        omega
      have hpush : push_metric l x = l ++ [x] := by
        simp only [push_metric]
        rw [if_neg hcond]
      rw [hstep, hpush, ih (l ++ [x]) (by omega)]
      have harith : (l ++ [x]).length + xs.length - 100
          = l.length + (x :: xs).length - 100 := by
        simp only [hlx, List.length_cons]
        omega
      rw [harith, List.append_assoc]
      rfl
    · have hlen : l.length = 100 := by omega
      have hcond : (l ++ [x]).length > MAX_METRICS_STORAGE := by
        simp only [hlx, MAX_METRICS_STORAGE, gt_iff_lt]
        omega
      have hpush : push_metric l x = (l ++ [x]).drop 1 := by
        simp only [push_metric]
        rw [if_pos hcond]
      have hlen1 : ((l ++ [x]).drop 1).length = 100 := by
        rw [List.length_drop, hlx]
        omega
      rw [hstep, hpush, ih _ (le_of_eq hlen1), hlen1]
      have harith : 100 + xs.length - 100 = xs.length := by omega
      rw [harith]
      have hsplit : (l ++ [x]).drop 1 ++ xs = ((l ++ [x]) ++ xs).drop 1 :=
        (List.drop_append_of_le_length (by rw [hlx]; omega)).symm
      rw [hsplit, List.drop_drop]
      have harith₂ : l.length + (x :: xs).length - 100 = 1 + xs.length := by
        simp only [List.length_cons]
        omega
      rw [harith₂, List.append_assoc]
      rfl

/-! ## Lemmas about sequences of registrations -/

theorem register_all_users (hashpw : String → String → String) (salt : String)
    (now : ℚ) :
    ∀ (creds : List (String × String)) (m : AuthManager),
      (∀ c ∈ creds, dictLookup c.1 m.users = none) →
      (creds.map Prod.fst).Nodup →
      (register_all hashpw salt now m creds).users.map (fun p => p.2.id)
          = m.users.map (fun p => p.2.id)
            ++ List.range' (m.users.length + 1) creds.length := by
  intro creds
  induction creds with
  | nil => intro m _ _; simp [register_all]
  | cons c rest ih =>
    intro m hfresh hnodup
    obtain ⟨u, pw⟩ := c
    have hu : dictLookup u m.users = none := hfresh (u, pw) (by simp)
    have hstep : register_all hashpw salt now m ((u, pw) :: rest)
        = register_all hashpw salt now (register_user hashpw salt now m u pw).1
            rest := rfl
    have hreg : (register_user hashpw salt now m u pw).1
        = { m with users := m.users
              ++ [(u, { id := m.users.length + 1, username := u,
                        password_hash := hashpw pw salt,
                        created_at := now })] } := by
      simp [register_user, hu, dictInsert_of_lookup_none u _ m.users hu]
    have hfresh₂ : ∀ c₂ ∈ rest,
        dictLookup c₂.1 (register_user hashpw salt now m u pw).1.users = none := by
      intro c₂ hc₂
      have hne : c₂.1 ≠ u := by
        have := hnodup
        simp only [List.map_cons, List.nodup_cons] at this
        intro hc
        exact this.1 (hc ▸ List.mem_map_of_mem Prod.fst hc₂)
      rw [hreg]
      simp only
      rw [dictLookup_append_of_none _ _ _ (hfresh c₂ (List.mem_cons_of_mem _ hc₂))]
      simp [dictLookup, hne.symm]
    have hnodup₂ : (rest.map Prod.fst).Nodup := by
      simp only [List.map_cons, List.nodup_cons] at hnodup
      exact hnodup.2
    rw [hstep, ih _ hfresh₂ hnodup₂, hreg]
    simp only [List.map_append, List.length_append, List.map_cons, List.map_nil,
      List.length_cons, List.length_nil]
    rw [List.append_assoc]
    congr 1

/-! ## Claim theorems -/

/-- C1. `check_thresholds` produces a CPU alert iff the CPU value is
strictly greater than the CPU threshold (equality gives no alert), and
independently a MEMORY alert iff the memory value is strictly greater
than the memory threshold; every produced alert has severity HIGH and
carries in its threshold field the threshold in effect at evaluation
time (and in its value field the offending sample value). -/
theorem check_thresholds_spec (m : AlertManager) (cpu mem ts : ℚ) :
    ((∃ a ∈ check_thresholds m cpu mem ts, a.type = AlertType.CPU)
        ↔ cpu > m.cpu_threshold)
    ∧ ((∃ a ∈ check_thresholds m cpu mem ts, a.type = AlertType.MEMORY)
        ↔ mem > m.memory_threshold)
    ∧ (∀ a ∈ check_thresholds m cpu mem ts,
        a.severity = "HIGH"
        ∧ (a.type = AlertType.CPU → a.threshold = m.cpu_threshold ∧ a.value = cpu)
        ∧ (a.type = AlertType.MEMORY →
            a.threshold = m.memory_threshold ∧ a.value = mem)) := by
  by_cases h₁ : cpu > m.cpu_threshold <;> by_cases h₂ : mem > m.memory_threshold <;>
    simp [check_thresholds, h₁, h₂]

/-- Witness for C1, the spec's boundary example scaled to the initial
thresholds: at a CPU value equal to the threshold no CPU alert is
produced; at a strictly greater value one is. -/
theorem check_thresholds_spec_witness :
    (¬ ∃ a ∈ check_thresholds AlertManager.init 25 0 0, a.type = AlertType.CPU)
    ∧ (∃ a ∈ check_thresholds AlertManager.init 26 0 0, a.type = AlertType.CPU) := by
  constructor
  · intro hex
    have h := (check_thresholds_spec AlertManager.init 25 0 0).1.mp hex
    revert h
    decide
  · exact (check_thresholds_spec AlertManager.init 26 0 0).1.mpr (by decide)

/-- C2. The threshold setters accept exactly the values in `[0, 100]`,
and on a rejected value they raise leaving both stored thresholds (as
reported by `get_thresholds`) unchanged; the other threshold is unchanged
in both cases. -/
theorem set_threshold_spec (m : AlertManager) (v : ℚ) :
    (0 ≤ v → v ≤ 100 →
      set_cpu_threshold m v = ({ m with cpu_threshold := v }, Except.ok ())
      ∧ set_memory_threshold m v = ({ m with memory_threshold := v }, Except.ok ()))
    ∧ (¬ (0 ≤ v ∧ v ≤ 100) →
      set_cpu_threshold m v
          = (m, Except.error "CPU threshold must be between 0 and 100")
      ∧ set_memory_threshold m v
          = (m, Except.error "Memory threshold must be between 0 and 100")
      ∧ get_thresholds (set_cpu_threshold m v).1 = get_thresholds m
      ∧ get_thresholds (set_memory_threshold m v).1 = get_thresholds m)
    ∧ (set_cpu_threshold m v).1.memory_threshold = m.memory_threshold
    ∧ (set_memory_threshold m v).1.cpu_threshold = m.cpu_threshold := by
  refine ⟨fun h₀ h₁ => ?_, fun h => ?_, ?_, ?_⟩
  · simp [set_cpu_threshold, set_memory_threshold, h₀, h₁]
  · simp only [ge_iff_le] at h
    simp [set_cpu_threshold, set_memory_threshold, h]
  · by_cases h : v ≥ 0 ∧ v ≤ 100 <;> simp [set_cpu_threshold, h]
  · by_cases h : v ≥ 0 ∧ v ≤ 100 <;> simp [set_memory_threshold, h]

/-- Witness for C2, the spec's example: `set_cpu_threshold(150)` fails
and `get_thresholds` still reports the prior values. -/
theorem set_threshold_spec_witness :
    set_cpu_threshold AlertManager.init 150
        = (AlertManager.init, Except.error "CPU threshold must be between 0 and 100")
    ∧ get_thresholds (set_cpu_threshold AlertManager.init 150).1
        = get_thresholds AlertManager.init := by
  have h := (set_threshold_spec AlertManager.init 150).2.1 (by decide)
  exact ⟨h.1, h.2.2.1⟩

/-- C9. `check_thresholds` returns at most two alerts, at most one CPU
and at most one MEMORY alert, and when it returns two the CPU alert
precedes the MEMORY alert. (The method reads the thresholds and mutates
nothing, which the embedding reflects by making it a pure function of the
`AlertManager` state.) -/
theorem check_thresholds_shape_spec (m : AlertManager) (cpu mem ts : ℚ) :
    (check_thresholds m cpu mem ts).length ≤ 2
    ∧ (check_thresholds m cpu mem ts).countP
        (fun a => decide (a.type = AlertType.CPU)) ≤ 1
    ∧ (check_thresholds m cpu mem ts).countP
        (fun a => decide (a.type = AlertType.MEMORY)) ≤ 1
    ∧ (∀ a b, check_thresholds m cpu mem ts = [a, b] →
        a.type = AlertType.CPU ∧ b.type = AlertType.MEMORY) := by
  by_cases h₁ : cpu > m.cpu_threshold <;> by_cases h₂ : mem > m.memory_threshold <;>
    simp [check_thresholds, h₁, h₂, List.countP_cons]

/-- Witness for C9: with both initial thresholds exceeded, the returned
pair is the CPU alert followed by the MEMORY alert. -/
theorem check_thresholds_shape_spec_witness :
    (check_thresholds AlertManager.init 30 40 0).length ≤ 2
    ∧ ((check_thresholds AlertManager.init 30 40 0).headD
          { type := AlertType.MEMORY, value := 0, threshold := 0,
            timestamp := 0, severity := "" }).type = AlertType.CPU := by
  refine ⟨(check_thresholds_shape_spec AlertManager.init 30 40 0).1, ?_⟩
  have h := (check_thresholds_shape_spec AlertManager.init 30 40 0).2.2.2
  decide

/-- C3. Starting from the empty buffer, after pushing any sequence of
samples the buffer holds exactly the most recent `min(n, 100)` of them in
insertion order (it equals the suffix obtained by dropping all but the
last 100), its length never exceeds 100 after any prefix of the pushes,
and after 150 pushes it holds exactly the last 100. -/
theorem metric_history_spec (xs : List Metric) :
    push_all [] xs = xs.drop (xs.length - 100)
    ∧ (push_all [] xs).length = min xs.length 100
    ∧ (∀ n : Nat, (push_all [] (xs.take n)).length ≤ 100)
    ∧ (xs.length = 150 → push_all [] xs = xs.drop 50) := by
  have hmain : push_all [] xs = xs.drop (xs.length - 100) := by
    have h := push_all_eq_drop xs [] (by simp)
    simpa using h
  refine ⟨hmain, ?_, ?_, ?_⟩
  · rw [hmain, List.length_drop]
    omega
  · intro n
    have h := push_all_eq_drop (xs.take n) [] (by simp)
    simp only [List.nil_append, List.length_nil, Nat.zero_add] at h
    rw [push_all] at h ⊢
    rw [h, List.length_drop, List.length_take]
    omega
  · intro h150
    rw [hmain, h150]

/-- Witness for C3, the spec's example shape: pushing 150 samples leaves
exactly the last 100, i.e. the suffix after dropping 50. -/
theorem metric_history_spec_witness :
    (List.replicate 150 (⟨0, 0, 0⟩ : Metric)).length = 150
    ∧ push_all [] (List.replicate 150 (⟨0, 0, 0⟩ : Metric))
      = (List.replicate 150 (⟨0, 0, 0⟩ : Metric)).drop 50 := by
  refine ⟨by simp, ?_⟩
  exact (metric_history_spec _).2.2.2 (by simp)

/-- C4. `validate_session` returns false and leaves the state unchanged
when the token is absent; when the token is present and the current time
is strictly after the session's expiry it deletes exactly that session
and returns false (every other token still resolves as before); and when
the token is present and not yet expired it returns true with the state
unchanged. -/
theorem validate_session_spec (now : ℚ) (m : AuthManager) (token : String) :
    (dictLookup token m.sessions = none →
      validate_session now m token = (m, false))
    ∧ (∀ s, dictLookup token m.sessions = some s → s.expiry < now →
        validate_session now m token
          = ({ m with sessions := dictDelete token m.sessions }, false)
        ∧ (∀ t₂, t₂ ≠ token →
            dictLookup t₂ (validate_session now m token).1.sessions
              = dictLookup t₂ m.sessions))
    ∧ (∀ s, dictLookup token m.sessions = some s → now ≤ s.expiry →
        validate_session now m token = (m, true)) := by
  refine ⟨fun h => ?_, fun s hs hexp => ?_, fun s hs hexp => ?_⟩
  · simp [validate_session, h]
  · constructor
    · simp [validate_session, hs, hexp]
    · intro t₂ ht₂
      simp only [validate_session, hs, if_pos hexp]
      exact dictLookup_dictDelete_ne token t₂ m.sessions ht₂
  · have hlt : ¬ s.expiry < now := not_lt.mpr hexp
    simp [validate_session, hs, hlt]

/-- Witness for C4: a store holding one session expired at time 10,
validated at time 11, deletes it and returns false. -/
theorem validate_session_spec_witness :
    validate_session 11 (⟨[], [("t", ⟨1, "a", 10⟩)], 24⟩ : AuthManager) "t"
      = (⟨[], dictDelete "t" [("t", ⟨1, "a", 10⟩)], 24⟩, false) :=
  ((validate_session_spec 11 (⟨[], [("t", ⟨1, "a", 10⟩)], 24⟩ : AuthManager) "t").2.1
    ⟨1, "a", 10⟩ (by decide) (by decide)).1

/-- C6. A failed login — unknown username or password-check failure —
returns the very same error message in both cases (so the two are
indistinguishable to the caller) and leaves the user and session stores
exactly as they were. -/
theorem login_failure_indistinguishable (checkpw : String → String → Bool)
    (tokenBytes : List Nat) (now : ℚ) (m : AuthManager) (username password : String) :
    (dictLookup username m.users = none →
      login_user checkpw tokenBytes now m username password
        = (m, Except.error "Invalid username or password"))
    ∧ (∀ user, dictLookup username m.users = some user →
        checkpw password user.password_hash = false →
        login_user checkpw tokenBytes now m username password
          = (m, Except.error "Invalid username or password")) := by
  refine ⟨fun h => ?_, fun user hu hpw => ?_⟩
  · simp [login_user, h]
  · simp [login_user, hu, hpw]

/-- Witness for C6: on a store with one user, an unknown-user failure and
a wrong-password failure return identical results. -/
theorem login_failure_indistinguishable_witness :
    login_user (fun _ _ => false) [] 0
        (⟨[("alice", ⟨1, "alice", "h", 0⟩)], [], 24⟩ : AuthManager) "bob" "pw"
      = login_user (fun _ _ => false) [] 0
        (⟨[("alice", ⟨1, "alice", "h", 0⟩)], [], 24⟩ : AuthManager) "alice" "pw" := by
  have h₁ := (login_failure_indistinguishable (fun _ _ => false) [] 0
    (⟨[("alice", ⟨1, "alice", "h", 0⟩)], [], 24⟩ : AuthManager) "bob" "pw").1
    (by decide)
  have h₂ := (login_failure_indistinguishable (fun _ _ => false) [] 0
    (⟨[("alice", ⟨1, "alice", "h", 0⟩)], [], 24⟩ : AuthManager) "alice" "pw").2
    ⟨1, "alice", "h", 0⟩ (by decide) rfl
  rw [h₁, h₂]

/-- C7. `register_user` fails with the already-exists error iff the
username is present, leaving the store untouched on failure; on success
it appends exactly one new user record, whose password field holds the
salted hash of the password (the hash function applied to the password
and the salt, never the plaintext), and returns that user's id. -/
theorem register_user_spec (hashpw : String → String → String) (salt : String)
    (now : ℚ) (m : AuthManager) (username password : String) :
    ((dictLookup username m.users).isSome →
      register_user hashpw salt now m username password
        = (m, Except.error "Username already exists"))
    ∧ (dictLookup username m.users = none →
      register_user hashpw salt now m username password
        = ({ m with users := m.users
              ++ [(username, ⟨m.users.length + 1, username,
                    hashpw password salt, now⟩)] },
           Except.ok (m.users.length + 1))
      ∧ dictLookup username
          (register_user hashpw salt now m username password).1.users
        = some ⟨m.users.length + 1, username, hashpw password salt, now⟩) := by
  refine ⟨fun h => ?_, fun h => ?_⟩
  · simp [register_user, h]
  · have hins := dictInsert_of_lookup_none username
      (⟨m.users.length + 1, username, hashpw password salt, now⟩ : User) m.users h
    have hnotsome : ¬ (dictLookup username m.users).isSome := by
      simp [h]
    constructor
    · simp only [register_user, hnotsome, if_false, Bool.false_eq_true]
      rw [hins]
    · simp only [register_user, hnotsome, if_false, Bool.false_eq_true]
      exact dictLookup_dictInsert_self username _ m.users

/-- Witness for C7: registering a fresh username on the empty store
stores the hashed password under id 1. -/
theorem register_user_spec_witness :
    register_user (fun p s => String.append s p) "s!" 0 AuthManager.init "alice" "pw"
      = (⟨[("alice", ⟨1, "alice", String.append "s!" "pw", 0⟩)], [], 24⟩,
         Except.ok 1) := by
  have h := (register_user_spec (fun p s => String.append s p) "s!" 0
    AuthManager.init "alice" "pw").2 rfl
  exact h.1

/-- C5. A successful login stores, under the returned token, a session
whose user id and username are the authenticated user's and whose expiry
is the issuance time plus the manager's fixed TTL (24 hours in
`__init__`); the token is the hex encoding of the 32 random bytes — 64
characters, all hexadecimal digits — and the encoding is injective on
byte strings, so the token carries the full 256 bits of randomness (in
particular at least 128 bits of entropy); the user store is untouched. -/
theorem login_success_spec (checkpw : String → String → Bool)
    (tokenBytes : List Nat) (now : ℚ) (m : AuthManager)
    (username password : String) (user : User)
    (hu : dictLookup username m.users = some user)
    (hpw : checkpw password user.password_hash = true)
    (hlen : tokenBytes.length = 32)
    (hbytes : ∀ b ∈ tokenBytes, b < 256) :
    (login_user checkpw tokenBytes now m username password).2
        = Except.ok (token_hex tokenBytes)
    ∧ (token_hex tokenBytes).length = 64
    ∧ (∀ c ∈ (token_hex tokenBytes).data, c ∈ hexDigits)
    ∧ dictLookup (token_hex tokenBytes)
        (login_user checkpw tokenBytes now m username password).1.sessions
      = some ⟨user.id, username, now + m.session_duration⟩
    ∧ (login_user checkpw tokenBytes now m username password).1.users = m.users
    ∧ AuthManager.init.session_duration = 24
    ∧ (∀ bytes₂ : List Nat, (∀ b ∈ bytes₂, b < 256) →
        token_hex bytes₂ = token_hex tokenBytes → bytes₂ = tokenBytes) := by
  have hrun : login_user checkpw tokenBytes now m username password
      = ({ m with sessions := dictInsert (token_hex tokenBytes) ⟨user.id, username, now + m.session_duration⟩ m.sessions }, Except.ok (token_hex tokenBytes)) := by
    simp [login_user, hu, hpw]
  refine ⟨by rw [hrun], ?_, ?_, ?_, by rw [hrun], rfl, ?_⟩
  · show (tokenBytes.flatMap byteToHex).length = 64
    rw [length_flatMap_byteToHex, hlen]
  · intro c hc
    exact mem_flatMap_byteToHex tokenBytes c hc
  · rw [hrun]
    exact dictLookup_dictInsert_self _ _ m.sessions
  · intro bytes₂ hb₂ heq
    have hdata : bytes₂.flatMap byteToHex = tokenBytes.flatMap byteToHex := by
      have := congrArg String.data heq
      simpa [token_hex] using this
    calc bytes₂ = bytesOfHex (bytes₂.flatMap byteToHex) :=
          (bytesOfHex_flatMap bytes₂ hb₂).symm
      _ = bytesOfHex (tokenBytes.flatMap byteToHex) := by rw [hdata]
      _ = tokenBytes := bytesOfHex_flatMap tokenBytes hbytes

/-- Witness for C5: logging in the sole user of a one-user store with 32
zero bytes of randomness yields the 64-character token and stores the
session with a 24-hour expiry. -/
theorem login_success_spec_witness :
    (login_user (fun _ _ => true) (List.replicate 32 0) 0
        (⟨[("alice", ⟨1, "alice", "h", 0⟩)], [], 24⟩ : AuthManager)
        "alice" "pw").2
      = Except.ok (token_hex (List.replicate 32 0))
    ∧ (token_hex (List.replicate 32 0)).length = 64 := by
  have h := login_success_spec (fun _ _ => true) (List.replicate 32 0) 0
    (⟨[("alice", ⟨1, "alice", "h", 0⟩)], [], 24⟩ : AuthManager)
    "alice" "pw" ⟨1, "alice", "h", 0⟩ (by decide) rfl (by simp) (by simp)
  exact ⟨h.1, h.2.1⟩

/-- C8. Along any run of the collection loop: every observed iteration
ran with the stop signal unset at its boundary and was followed by a
5-unit sleep if its body succeeded and by a 10-unit backoff if its body
failed — a failed iteration is caught and the loop continues; if the
trace ends before the observation budget is exhausted, it is because the
stop signal was set at the next iteration boundary; and if the stop
signal is never set the loop runs for the whole budget, so no sequence of
failures terminates it. -/
theorem collection_loop_spec (stop fail : Nat → Bool) (fuel i : Nat) :
    (∀ j, j < (loop_trace stop fail fuel i).length →
      (loop_trace stop fail fuel i)[j]?
          = some (if fail (i + j) then ⟨true, 10⟩ else ⟨false, 5⟩)
        ∧ stop (i + j) = false)
    ∧ ((loop_trace stop fail fuel i).length < fuel →
        stop (i + (loop_trace stop fail fuel i).length) = true)
    ∧ ((∀ j, stop j = false) → (loop_trace stop fail fuel i).length = fuel) := by
  induction fuel generalizing i with
  | zero =>
    refine ⟨fun j hj => ?_, fun h => ?_, fun _ => rfl⟩
    · simp [loop_trace] at hj
    · simp at h
  | succ n ih =>
    by_cases hs : stop i
    · have htr : loop_trace stop fail (n + 1) i = [] := by
        simp [loop_trace, hs]
      refine ⟨fun j hj => ?_, fun _ => ?_, fun hnever => ?_⟩
      · rw [htr] at hj
        simp at hj
      · rw [htr]
        simpa using hs
      · exact absurd hs (by simp [hnever i])
    · have htr : loop_trace stop fail (n + 1) i
          = (if fail i then ⟨true, 10⟩ else ⟨false, 5⟩)
            :: loop_trace stop fail n (i + 1) := by
        simp [loop_trace, hs]
      obtain ⟨ih₁, ih₂, ih₃⟩ := ih (i + 1)
      refine ⟨fun j hj => ?_, fun hlt => ?_, fun hnever => ?_⟩
      · match j with
        | 0 =>
          rw [htr]
          simpa using hs
        | j + 1 =>
          rw [htr] at hj ⊢
          simp only [List.length_cons, Nat.add_lt_add_iff_right] at hj
          have := ih₁ j hj
          simpa [Nat.add_comm, Nat.add_assoc, Nat.add_left_comm] using this
      · rw [htr] at hlt ⊢
        simp only [List.length_cons, Nat.add_lt_add_iff_right] at hlt
        have := ih₂ hlt
        simpa [Nat.add_comm, Nat.add_assoc, Nat.add_left_comm] using this
      · rw [htr]
        simp [ih₃ hnever]

/-- Witness for C8: with the stop signal never set and exactly the second
iteration failing, a three-iteration observation shows the loop
running its full budget with sleeps 5, 10, 5. -/
theorem collection_loop_spec_witness :
    (loop_trace (fun _ => false) (fun j => decide (j = 1)) 3 0).length = 3
    ∧ (loop_trace (fun _ => false) (fun j => decide (j = 1)) 3 0)[1]?
        = some ⟨true, 10⟩
    ∧ (loop_trace (fun _ => false) (fun j => decide (j = 1)) 3 0)[0]?
        = some ⟨false, 5⟩ := by
  obtain ⟨h₁, _, h₃⟩ :=
    collection_loop_spec (fun _ => false) (fun j => decide (j = 1)) 3 0
  have hlen := h₃ (fun _ => rfl)
  refine ⟨hlen, ?_, ?_⟩
  · have := (h₁ 1 (by rw [hlen]; omega)).1
    simpa using this
  · have := (h₁ 0 (by rw [hlen]; omega)).1
    simpa using this

/-- C10. Along any sequence of successful registrations starting from the
empty store (pairwise-distinct usernames make every call succeed), each
call returns id `len(users) + 1`, so the stored ids are exactly
`1, 2, …, n` in registration order — strictly increasing, hence pairwise
distinct; and every `Except.ok` result of `register_user` equals the
number of previously stored users plus one. -/
theorem register_ids_spec (hashpw : String → String → String) (salt : String)
    (now : ℚ) (creds : List (String × String))
    (hnodup : (creds.map Prod.fst).Nodup) :
    (register_all hashpw salt now AuthManager.init creds).users.map
        (fun p => p.2.id) = List.range' 1 creds.length
    ∧ ((register_all hashpw salt now AuthManager.init creds).users.map
        (fun p => p.2.id)).Pairwise (· < ·)
    ∧ (∀ (m : AuthManager) (u pw : String) (n : Nat),
        (register_user hashpw salt now m u pw).2 = Except.ok n →
          n = m.users.length + 1) := by
  have hids : (register_all hashpw salt now AuthManager.init creds).users.map
      (fun p => p.2.id) = List.range' 1 creds.length := by
    have h := register_all_users hashpw salt now creds AuthManager.init
      (fun c _ => rfl) hnodup
    simpa [AuthManager.init] using h
  refine ⟨hids, ?_, ?_⟩
  · rw [hids]
    exact List.pairwise_lt_range' 1 creds.length
  · intro m u pw n h
    by_cases hc : (dictLookup u m.users).isSome
    · simp [register_user, hc] at h
    · simp only [register_user, hc, if_false, Bool.false_eq_true] at h
      exact (Except.ok.injEq _ _ ▸ h).symm

/-- Witness for C10: two successful registrations from the empty store
produce ids `[1, 2]`. -/
theorem register_ids_spec_witness :
    (register_all (fun p s => String.append s p) "s!" 0 AuthManager.init
        [("alice", "a"), ("bob", "b")]).users.map (fun p => p.2.id)
      = List.range' 1 2 :=
  (register_ids_spec (fun p s => String.append s p) "s!" 0
    [("alice", "a"), ("bob", "b")] (by decide)).1
